import Mathlib

/-!
# Verification of the ZipGrade scraper core (`src/descargar/zipgrade_scraper.py`)

Shallow embedding, in Lean 4, of the resilient interaction layer of the
scraper: filename sanitisation, the ordered-fallback locator resolver
(`wait_for_first`), the download-detection and rename step of
`open_quiz_and_download`, the `--only`/`--max` filters of `main`, and the
round-bounded retry scheduler (`process_batch` plus the retry loop in
`main`).  Strings are modelled as `List Char`; the browser and filesystem
are modelled by explicit parameters (a satisfiability oracle for locator
candidates, snapshots of directory contents, a per-attempt outcome
function for tasks).
-/

namespace Zipgrade

/-- Characters replaced by the first regex of `sanitize_filename`
(`[\\/*?"<>|:]`, line 189 of the source). -/
def illegalChar (c : Char) : Bool :=
  c = '\\' || c = '/' || c = '*' || c = '?' || c = '"' ||
    c = '<' || c = '>' || c = '|' || c = ':'

/-- ASCII whitespace as matched by Python's `\s` and stripped by `str.strip`. -/
def pySpace (c : Char) : Bool :=
  c = ' ' || c = '\t' || c = '\n' || c = '\r' || c = '\x0b' || c = '\x0c'

/-- `re.sub(r"[\\/*?\"<>|:]", " ", name)` (line 189): every illegal character
becomes a single space. -/
def replIllegal (l : List Char) : List Char :=
  l.map (fun c => if illegalChar c then ' ' else c)

/-- `re.sub(r"\s+", " ", s)` (line 191): each maximal run of whitespace
becomes one space.  The boolean flag records whether the previous character
was part of a whitespace run already emitted. -/
def collapseWS : Bool → List Char → List Char
  | _, [] => []
  | prevSpace, c :: rest =>
    if pySpace c then
      if prevSpace then collapseWS true rest
      else ' ' :: collapseWS true rest
    else c :: collapseWS false rest

/-- Removal of trailing whitespace (the right half of `.strip()`, line 191). -/
def rstripWS : List Char → List Char
  | [] => []
  | c :: rest =>
    let r := rstripWS rest
    if r = [] && pySpace c then [] else c :: r

/-- `.strip()` (line 191): drop leading then trailing whitespace. -/
def stripWS (l : List Char) : List Char :=
  rstripWS (l.dropWhile pySpace)

/-- `sanitize_filename` (lines 186-193): replace illegal characters with
spaces, collapse whitespace runs, strip, then truncate to 180 characters
(`sanitized[:180]`). -/
def sanitize_filename (l : List Char) : List Char :=
  (stripWS (collapseWS false (replIllegal l))).take 180

/-- Target-name construction in `open_quiz_and_download` (lines 380-382):
`date_part` is the first 10 characters of the date hint when the hint is
non-empty, otherwise the current date `nowDate`; the name is
`f"{date_part} - {sanitized_title} - full.csv"`. -/
def buildTargetName (dateText title nowDate : List Char) : List Char :=
  let datePart := if dateText ≠ [] then dateText.take 10 else nowDate
  datePart ++ (" - ").data ++ sanitize_filename title ++ (" - full.csv").data

/-! ## Locator resolver (`wait_for_first`, lines 196-227)

A candidate is abstract; the browser is modelled by a satisfiability oracle
`sat : Cand → Option Elem`: `some e` means the candidate's wait found
element `e` within its timeout, `none` means the wait raised (timeout or
any other exception, caught by the `except` clause and remembered as
`last_exception`). -/

/-- Result of `wait_for_first`: an element was found; the loop fell through
and re-raised `last_exception`, which belongs to the last candidate tried;
or no candidate ever ran (`last_exception is None`) and a `TimeoutException`
naming the whole candidate list is raised (line 227). -/
inductive FirstResult (Cand Elem : Type) where
  | found : Elem → FirstResult Cand Elem
  | raisedLast : Cand → FirstResult Cand Elem
  | noneMatched : List Cand → FirstResult Cand Elem
deriving DecidableEq

/-- The list of candidates named by the error of a failed resolve: the
re-raised `last_exception` (line 226) belongs to the wait of one single
candidate and names only that one; the `TimeoutException` of line 227
formats the whole `candidates` argument; a successful resolve raises
nothing. -/
def errorCandidates {Cand Elem : Type} : FirstResult Cand Elem → List Cand
  | .found _ => []
  | .raisedLast c => [c]
  | .noneMatched cs => cs

/-- The `for by, sel in candidates` loop of `wait_for_first`.  `orig` is
the function's `candidates` argument (the list line 227 formats), `last`
is `last_exception` (tagged by the candidate that raised it), `tried`
records the candidates attempted so far, in order. -/
def wfAux {Cand Elem : Type} (sat : Cand → Option Elem) (orig : List Cand) :
    List Cand → Option Cand → List Cand → FirstResult Cand Elem × List Cand
  | [], some c, tried => (.raisedLast c, tried)
  | [], none, tried => (.noneMatched orig, tried)
  | c :: rest, _last, tried =>
    match sat c with
    | some e => (.found e, tried ++ [c])
    | none => wfAux sat orig rest (some c) (tried ++ [c])

/-- `wait_for_first(driver, candidates, ...)`: try candidates in declared
order, return the first hit, re-raise the last failure otherwise.  Also
returns the list of candidates actually attempted. -/
def wait_for_first {Cand Elem : Type} (sat : Cand → Option Elem)
    (candidates : List Cand) : FirstResult Cand Elem × List Cand :=
  wfAux sat candidates candidates none []

/-! ## Download detection and rename (`open_quiz_and_download`, lines 404-433) -/

/-- A file in the watched download directory: its name and its modification
time (`st_mtime`), modelled as a natural number. -/
structure FileInfo where
  name : List Char
  mtime : Nat
deriving DecidableEq

/-- `completed = [f for f in new_files if not f.endswith(".crdownload")]`
applied to `new_files = after_files - before_files` (lines 413-415):
the files of the after-snapshot that are not in the before-snapshot and do
not carry the in-progress suffix. -/
def completedNew (before : List (List Char)) (after : List FileInfo) :
    List FileInfo :=
  after.filter (fun f =>
    decide (f.name ∉ before) && !(".crdownload").data.isSuffixOf f.name)

/-- `max(..., key=lambda p: p.stat().st_mtime)` (lines 418-422): Python's
`max` returns the first element whose key is maximal (later elements replace
the accumulator only when strictly greater). -/
def pickLatest : List FileInfo → Option FileInfo
  | [] => none
  | f :: rest =>
    some (rest.foldl (fun acc g => if acc.mtime < g.mtime then g else acc) f)

/-- `Path.stem` / `Path.suffix`: split off the final extension.  Following
`pathlib`, the suffix is non-empty only when the last dot lies strictly
inside the name (not first, not last character). -/
def pySplitExt (l : List Char) : List Char × List Char :=
  let rev := l.reverse
  let after := rev.takeWhile (fun c => c ≠ '.')
  if 0 < after.length ∧ after.length + 1 < l.length then
    (l.take (l.length - after.length - 1), '.' :: after.reverse)
  else (l, [])

/-- A file of the watched directory as a (name, content) pair; the content
is an abstract identifier, carried so that overwriting a file is
observable in the model. -/
structure DirEntry where
  name : List Char
  content : Nat
deriving DecidableEq

/-- The rename step of `open_quiz_and_download` (lines 424-431), with the
platform semantics of `Path.rename` made explicit by the `posixRename`
flag.  On POSIX, `os.rename` silently *replaces* an existing target file;
on Windows it raises `FileExistsError` instead.  The source wraps
`latest.rename(target_path)` in `try/except` and, on an exception, renames
to `f"{target_path.stem} ({int(time.time())}){target_path.suffix}"` (its
comment: "Use a unique suffix if a file already exists") — so that branch
runs on a name collision only under the raising (Windows) semantics.
`latest` is the detected artifact, `now` the value of `int(time.time())`.
Returns the artifact's final name and the resulting directory contents. -/
def renameStep (posixRename : Bool) (entries : List DirEntry)
    (latest : DirEntry) (target : List Char) (now : Nat) :
    List Char × List DirEntry :=
  if posixRename ∨ target ∉ entries.map DirEntry.name then
    (target,
      (entries.filter (fun e => e.name ≠ latest.name && e.name ≠ target))
        ++ [⟨target, latest.content⟩])
  else
    let target2 := (pySplitExt target).1 ++ (" (").data ++
      (Nat.toDigits 10 now) ++ (")").data ++ (pySplitExt target).2
    (target2,
      (entries.filter (fun e => e.name ≠ latest.name && e.name ≠ target2))
        ++ [⟨target2, latest.content⟩])

/-! ## Quiz filters in `main` (lines 543-547) -/

/-- Python list slicing `l[:m]` for an integer bound `m`: clamp a
non-negative bound at the length, count a negative bound from the end. -/
def pySliceTo (m : Int) (l : List α) : List α :=
  if 0 ≤ m then l.take m.toNat else l.take (l.length - (-m).toNat)

/-- Lower-casing of a character as used by `str.lower()` on ASCII titles. -/
def lowerChar (c : Char) : Char := c.toLower

/-- `substring in q["title"].lower()` where `substring = args.only.lower()`
(lines 543-545). -/
def titleMatches (only : List Char) (title : List Char) : Bool :=
  decide ((only.map lowerChar) <:+: (title.map lowerChar))

/-- The filter stage of `main`: `--only` keeps titles containing the
substring case-insensitively; `--max` truncates via `quizzes[: args.max]`
but only when `args.max` is truthy (`if args.max:`), so `None` and `0` both
leave the list unchanged. -/
def applyFilters (only : Option (List Char)) (max : Option Int)
    (quizzes : List (List Char)) : List (List Char) :=
  let qs := match only with
    | none => quizzes
    | some sub => quizzes.filter (titleMatches sub)
  match max with
  | none => qs
  | some m => if m ≠ 0 then pySliceTo m qs else qs

/-! ## Retry scheduler (`process_batch` and the retry loop of `main`,
lines 550-599)

A task is identified by a natural number; its interaction with
`open_quiz_and_download` is modelled by a behaviour function
`behav : Nat → Nat → Outcome` giving the outcome of each task's successive
attempts (attempt numbering starts at 0). -/

/-- Classification of one `open_quiz_and_download` attempt, as routed by the
`try/except` of `process_batch`: normal return, `PopupError`,
`RateLimitError`, or any other exception (`TimeoutException` from the
download wait or from `wait_for_first`, etc.). -/
inductive Outcome where
  | success
  | popup
  | rateLimited
  | otherError
deriving DecidableEq

/-- Scheduler state threaded through `process_batch` calls and the retry
loop.  `succeeded` are tasks whose artifact was written; `rateLimited` is
the `rate_limited` list (tasks paired with their next attempt index);
`dropped` are tasks that hit the generic `except Exception` branch (printed
and forgotten); `log` records every processing attempt `(task, attempt)` in
order; `sleeps` records each `time.sleep(wait_time)` duration; `rounds` is
the retry-round counter. -/
structure SchedState where
  succeeded : List Nat
  rateLimited : List (Nat × Nat)
  dropped : List Nat
  log : List (Nat × Nat)
  sleeps : List Nat
  rounds : Nat
deriving DecidableEq

/-- `process_batch(batch)` (lines 553-575): pop the head task, attempt it,
route the outcome: success increments `processed`; `PopupError` appends the
task back to the end of the same batch; `RateLimitError` appends it to
`rate_limited`; any other exception drops it.  `fuel` bounds the number of
loop iterations (the Python loop has no such bound and can diverge when
popups recur forever); unconsumed batch entries are returned when fuel runs
out.  Returns (remaining batch, `processed`, state). -/
def processBatch (behav : Nat → Nat → Outcome) :
    Nat → List (Nat × Nat) → Nat → SchedState →
    List (Nat × Nat) × Nat × SchedState
  | 0, batch, proc, s => (batch, proc, s)
  | _ + 1, [], proc, s => ([], proc, s)
  | fuel + 1, (t, n) :: rest, proc, s =>
    let s1 := { s with log := s.log ++ [(t, n)] }
    match behav t n with
    | .success =>
      processBatch behav fuel rest (proc + 1)
        { s1 with succeeded := s1.succeeded ++ [t] }
    | .popup =>
      processBatch behav fuel (rest ++ [(t, n + 1)]) proc s1
    | .rateLimited =>
      processBatch behav fuel rest proc
        { s1 with rateLimited := s1.rateLimited ++ [(t, n + 1)] }
    | .otherError =>
      processBatch behav fuel rest proc
        { s1 with dropped := s1.dropped ++ [t] }

/-- The retry loop of `main` (lines 580-594):
`while rate_limited and rounds < max_rounds`: increment `rounds`, sleep
`backoff_seconds * rounds`, move `rate_limited` into a fresh batch, run
`process_batch` on it, and `break` when the round processed zero tasks.
`budget` is `max_rounds - rounds`, the structurally decreasing count of
rounds still allowed.  Batch entries left over by fuel exhaustion are put
back into `rateLimited`. -/
def retryRounds (behav : Nat → Nat → Outcome) (procFuel baseBackoff : Nat) :
    Nat → SchedState → SchedState
  | 0, s => s
  | budget + 1, s =>
    if s.rateLimited = [] then s
    else
      let r := s.rounds + 1
      let s1 := { s with rounds := r, sleeps := s.sleeps ++ [baseBackoff * r],
                         rateLimited := [] }
      let out := processBatch behav procFuel s.rateLimited 0 s1
      let s2 := { out.2.2 with rateLimited := out.1 ++ out.2.2.rateLimited }
      if out.2.1 = 0 then s2
      else retryRounds behav procFuel baseBackoff budget s2

/-- The whole scheduling section of `main` (lines 550-599): the initial
`process_batch(to_process)` pass followed by the retry loop.  Returns the
initial pass's unconsumed batch (empty whenever `procFuel` suffices) and the
final state; the final state's `rateLimited` holds the quizzes reported as
permanently failed (lines 596-599). -/
def runScheduler (behav : Nat → Nat → Outcome) (tasks : List Nat)
    (maxRounds baseBackoff procFuel : Nat) :
    List (Nat × Nat) × SchedState :=
  let s0 : SchedState := ⟨[], [], [], [], [], 0⟩
  let out := processBatch behav procFuel (tasks.map (fun t => (t, 0))) 0 s0
  (out.1, retryRounds behav procFuel baseBackoff maxRounds out.2.2)

/-- Two adjacent characters are not both whitespace — the shape
`re.sub(r"\s+", " ", ...)` guarantees for its output. -/
def notBothWS (a b : Char) : Prop := pySpace a = false ∨ pySpace b = false

/-- The multiset of task ids held in a pending batch together with the
terminal lists of a scheduler state.  Used to state that the scheduler
neither loses nor duplicates tasks. -/
def taskAccount (batch : List (Nat × Nat)) (s : SchedState) : Multiset Nat :=
  (↑(batch.map Prod.fst) : Multiset Nat) + ↑s.succeeded
    + ↑(s.rateLimited.map Prod.fst) + ↑s.dropped

/-! ## Theorems -/

/-- Unfolding of the `for` loop of `wait_for_first` when every remaining
candidate is unsatisfiable: the loop finishes with `last_exception` set to
the failure of the *last* candidate and re-raises it. -/
theorem wfAux_all_none {Cand Elem : Type} (sat : Cand → Option Elem)
    (orig : List Cand) :
    ∀ (cs : List Cand) (hne : cs ≠ []) (last : Option Cand) (tried : List Cand),
      (∀ c ∈ cs, sat c = none) →
      wfAux sat orig cs last tried
        = (FirstResult.raisedLast (cs.getLast hne), tried ++ cs) := by
  intro cs
  induction cs with
  | nil => intro hne; exact absurd rfl hne
  | cons c rest ih =>
    intro _ last tried hfail
    have hc : sat c = none := hfail c (List.mem_cons_self _ _)
    by_cases hr : rest = []
    · subst hr
      simp [wfAux, hc]
    · have hrec := ih hr (some c) (tried ++ [c])
        (fun d hd => hfail d (List.mem_cons_of_mem _ hd))
      simp [wfAux, hc, hrec, List.getLast_cons hr]

/-- Unfolding of the `for` loop of `wait_for_first` when the first
satisfiable candidate is at position `k`: the loop stops there. -/
theorem wfAux_first_sat {Cand Elem : Type} (sat : Cand → Option Elem)
    (orig : List Cand) :
    ∀ (cs : List Cand) (k : Nat) (hk : k < cs.length) (e : Elem)
      (last : Option Cand) (tried : List Cand),
      (∀ i (hi : i < k), sat (cs.get ⟨i, hi.trans hk⟩) = none) →
      sat (cs.get ⟨k, hk⟩) = some e →
      wfAux sat orig cs last tried
        = (FirstResult.found e, tried ++ cs.take (k + 1)) := by
  intro cs
  induction cs with
  | nil => intro k hk; exact absurd hk (by simp)
  | cons c rest ih =>
    intro k hk e last tried hbefore hsat
    cases k with
    | zero =>
      simp only [List.get] at hsat
      simp [wfAux, hsat]
    | succ k' =>
      have hc : sat c = none := by
        have := hbefore 0 (Nat.succ_pos k')
        simpa using this
      have hk' : k' < rest.length := Nat.lt_of_succ_lt_succ hk
      have hrec := ih k' hk' e (some c) (tried ++ [c])
        (fun i hi => by
          have := hbefore (i + 1) (Nat.succ_lt_succ hi)
          simpa using this)
        (by simpa using hsat)
      simp [wfAux, hc, hrec]

/-- C6: for every locator set whose first satisfiable candidate is the one
at index `k`, `wait_for_first` returns the element found by that candidate,
and the candidates attempted are exactly the first `k + 1` — no candidate
after `k` is ever tried.  (Source lines 196-227: the `for` loop returns as
soon as a candidate's wait succeeds.) -/
theorem C6_first_satisfiable_wins {Cand Elem : Type} (sat : Cand → Option Elem)
    (cands : List Cand) (k : Nat) (hk : k < cands.length) (e : Elem)
    (hbefore : ∀ i (hi : i < k), sat (cands.get ⟨i, hi.trans hk⟩) = none)
    (hsat : sat (cands.get ⟨k, hk⟩) = some e) :
    wait_for_first sat cands = (FirstResult.found e, cands.take (k + 1)) := by
  have := wfAux_first_sat sat cands cands k hk e none [] hbefore hsat
  simpa [wait_for_first] using this

/-- Witness for C6: the second of three candidates is the first satisfiable
one; the resolver returns its element and attempts only the first two. -/
theorem C6_witness :
    wait_for_first (fun c : Nat => if c = 1 then some 42 else none) [5, 1, 7]
      = (FirstResult.found 42, [5, 1]) :=
  C6_first_satisfiable_wins (fun c : Nat => if c = 1 then some 42 else none)
    [5, 1, 7] 1 (by decide) 42
    (fun i hi => match i, hi with
      | 0, _ => rfl
      | n + 1, hi => absurd hi (by omega))
    rfl

/-- C4 counterexample: a locator set of two candidates, neither of which
is satisfiable; both are attempted.  The claim predicts a failure whose
error lists all attempted candidates, i.e. `errorCandidates` would be the
full list `[0, 1]`.  Instead, `wait_for_first` re-raises the *last*
candidate's own failure (`raise last_exception`, line 226), whose error
names only candidate `1`; the `TimeoutException(f"None of the selectors
matched: {candidates}")` of line 227 is unreachable once the loop has run
at least one iteration, because `last_exception` is then always set. -/
theorem C4_counterexample :
    errorCandidates (wait_for_first (fun _ : Nat => (none : Option Nat)) [0, 1]).1
        ≠ [0, 1] ∧
      errorCandidates
          (wait_for_first (fun _ : Nat => (none : Option Nat)) [0, 1]).1
        = [1] := by
  constructor
  · decide
  · rfl

/-- C4 (amended): when no candidate of a locator set is satisfiable within
its timeout, `wait_for_first` attempts every candidate in declared order
(the attempted list is the whole set) and then fails by re-raising the
failure of the *last* candidate — an error naming that one candidate only;
the `TimeoutException` listing all candidates is produced exactly when the
candidate list is empty. -/
theorem C4_all_unsatisfiable {Cand Elem : Type} (sat : Cand → Option Elem)
    (cands : List Cand) (hfail : ∀ c ∈ cands, sat c = none) :
    (wait_for_first sat cands).2 = cands ∧
      (∀ hne : cands ≠ [],
        (wait_for_first sat cands).1
            = FirstResult.raisedLast (cands.getLast hne) ∧
          errorCandidates (wait_for_first sat cands).1
            = [cands.getLast hne]) ∧
      (cands = [] →
        (wait_for_first sat cands).1 = FirstResult.noneMatched []) := by
  have hkey : ∀ hne : cands ≠ [],
      wait_for_first sat cands
        = (FirstResult.raisedLast (cands.getLast hne), cands) := by
    intro hne
    have := wfAux_all_none sat cands cands hne none [] hfail
    simpa [wait_for_first] using this
  by_cases hne : cands = []
  · subst hne
    exact ⟨rfl, fun h => absurd rfl h, fun _ => rfl⟩
  · refine ⟨?_, ?_, fun h => absurd h hne⟩
    · rw [hkey hne]
    · intro hne'
      rw [hkey hne']
      exact ⟨rfl, rfl⟩

/-- Witness for C4 (amended) at a two-candidate set with no satisfiable
candidate: the raised error names only the last candidate. -/
theorem C4_amended_witness :
    (wait_for_first (fun _ : Nat => (none : Option Nat)) [0, 1]).1
        = FirstResult.raisedLast 1 ∧
      errorCandidates
          (wait_for_first (fun _ : Nat => (none : Option Nat)) [0, 1]).1
        = [1] :=
  (C4_all_unsatisfiable (fun _ : Nat => (none : Option Nat)) [0, 1]
      (fun _ _ => rfl)).2.1 (by decide)

/-- C3 counterexample: the canonical name computed for title
`"Quiz: Unit 3/Review"`, date hint `"2024-05-01T10:00"` and the fixed
export kind is *not* `"2024-05-01 - Quiz Unit 3_Review - full.csv"`:
`sanitize_filename` replaces `:` and `/` with spaces (line 189), not with
underscores, and the space runs are collapsed. -/
theorem C3_counterexample :
    buildTargetName ("2024-05-01T10:00").data ("Quiz: Unit 3/Review").data []
      ≠ ("2024-05-01 - Quiz Unit 3_Review - full.csv").data := by
  decide

/-- C3 (amended): the canonical name for that record is
`"2024-05-01 - Quiz Unit 3 Review - full.csv"`: illegal characters become
spaces, whitespace is collapsed, the date hint is truncated to its first 10
characters; the current date `now` is ignored because the hint is
non-empty. -/
theorem C3_filename (now : List Char) :
    buildTargetName ("2024-05-01T10:00").data ("Quiz: Unit 3/Review").data now
      = ("2024-05-01 - Quiz Unit 3 Review - full.csv").data := by
  have h : (("2024-05-01T10:00").data ≠ ([] : List Char)) := by decide
  simp only [buildTargetName, if_pos h]
  decide

/-- C9: passing `--max 0` applies no truncation at all — `if args.max:`
(line 546) treats `0` as falsy, so the quiz list is exactly what the
`--only` title filter leaves, the same as passing no `--max`; in particular
it is not truncated to zero records. -/
theorem C9_max_zero (only : Option (List Char)) (qs : List (List Char)) :
    applyFilters only (some 0) qs = applyFilters only none qs := by
  simp [applyFilters]

/-- The fold implementing Python's `max(..., key=mtime)` returns a member
of the list whose modification time is maximal. -/
theorem foldl_latest_spec :
    ∀ (l : List FileInfo) (a : FileInfo),
      l.foldl (fun acc g => if acc.mtime < g.mtime then g else acc) a ∈ a :: l ∧
      ∀ g ∈ a :: l,
        g.mtime ≤ (l.foldl (fun acc g => if acc.mtime < g.mtime then g else acc) a).mtime := by
  intro l
  induction l with
  | nil => intro a; simp
  | cons b rest ih =>
    intro a
    obtain ⟨hmem, hmax⟩ := ih (if a.mtime < b.mtime then b else a)
    constructor
    · simp only [List.foldl_cons]
      rcases List.mem_cons.mp hmem with h | h
      · rw [h]; split <;> simp
      · simp [List.mem_cons_of_mem, h]
    · intro g hg
      simp only [List.foldl_cons]
      have haccA : a.mtime ≤ (if a.mtime < b.mtime then b else a).mtime := by
        split <;> omega
      have haccB : b.mtime ≤ (if a.mtime < b.mtime then b else a).mtime := by
        split <;> omega
      have hacc := hmax (if a.mtime < b.mtime then b else a) (List.mem_cons_self _ _)
      rcases List.mem_cons.mp hg with h | h
      · subst h; exact le_trans haccA hacc
      · rcases List.mem_cons.mp h with h' | h'
        · subst h'; exact le_trans haccB hacc
        · exact hmax g (List.mem_cons_of_mem _ h')

/-- C8: whenever the poll loop's selection (`max` over the completed new
files, lines 417-422) yields a file, that file is one of the qualifying new
files — present after, absent before, not ending in `.crdownload` — and its
modification time is maximal among all of them; in particular when several
qualifying files appear in one window, exactly the most recently modified
one is matched to the current task. -/
theorem C8_latest_new_file (before : List (List Char)) (after : List FileInfo)
    (f : FileInfo) (h : pickLatest (completedNew before after) = some f) :
    f ∈ completedNew before after ∧
      (∀ g ∈ completedNew before after, g.mtime ≤ f.mtime) ∧
      f.name ∉ before ∧
      (".crdownload").data.isSuffixOf f.name = false := by
  have hmem_max : f ∈ completedNew before after ∧
      ∀ g ∈ completedNew before after, g.mtime ≤ f.mtime := by
    cases hc : completedNew before after with
    | nil => rw [hc] at h; exact absurd h (by simp [pickLatest])
    | cons a rest =>
      rw [hc] at h
      obtain ⟨hmem, hmax⟩ := foldl_latest_spec rest a
      have hf : f = rest.foldl (fun acc g => if acc.mtime < g.mtime then g else acc) a := by
        simpa [pickLatest] using h.symm
      rw [hf]
      exact ⟨hmem, hmax⟩
  refine ⟨hmem_max.1, hmem_max.2, ?_, ?_⟩
  · have := List.of_mem_filter hmem_max.1
    simp only [Bool.and_eq_true, decide_eq_true_eq] at this
    exact this.1
  · have := List.of_mem_filter hmem_max.1
    simp only [Bool.and_eq_true, Bool.not_eq_true'] at this
    exact this.2

/-- Witness for C8: of two new files, the one modified at time 9 is chosen
over the one modified at time 5. -/
theorem C8_witness :
    (⟨("b.csv").data, 9⟩ : FileInfo)
        ∈ completedNew [] [⟨("a.csv").data, 5⟩, ⟨("b.csv").data, 9⟩] ∧
      (⟨("b.csv").data, 9⟩ : FileInfo).name ∉ ([] : List (List Char)) :=
  ⟨(C8_latest_new_file [] [⟨("a.csv").data, 5⟩, ⟨("b.csv").data, 9⟩]
      ⟨("b.csv").data, 9⟩ (by decide)).1,
   (C8_latest_new_file [] [⟨("a.csv").data, 5⟩, ⟨("b.csv").data, 9⟩]
      ⟨("b.csv").data, 9⟩ (by decide)).2.2.1⟩

/-- C5 (code bug): the failing input is a POSIX host whose download
directory already holds the canonical file `"q.csv"` (content `1`) when
the freshly downloaded artifact `"export.csv"` (content `2`) is renamed.
Under POSIX rename semantics the artifact silently *replaces* the existing
file: the final name is the plain canonical name, no time-derived token is
appended, and the entry `("q.csv", 1)` is gone from the directory —
contradicting the claim and the source's own comment (line 428, "Use a
unique suffix if a file already exists").  Under the raising (Windows)
semantics the `except` branch assumes, the same input does produce the
token name `"q (7).csv"` and preserves the existing file. -/
theorem C5_posix_overwrites :
    (renameStep true [⟨("q.csv").data, 1⟩] ⟨("export.csv").data, 2⟩
          ("q.csv").data 7).1
        = ("q.csv").data ∧
      (⟨("q.csv").data, 1⟩ : DirEntry)
          ∉ (renameStep true [⟨("q.csv").data, 1⟩] ⟨("export.csv").data, 2⟩
              ("q.csv").data 7).2 ∧
      (renameStep false [⟨("q.csv").data, 1⟩] ⟨("export.csv").data, 2⟩
          ("q.csv").data 7).1
        = ("q (7).csv").data ∧
      (⟨("q.csv").data, 1⟩ : DirEntry)
          ∈ (renameStep false [⟨("q.csv").data, 1⟩] ⟨("export.csv").data, 2⟩
              ("q.csv").data 7).2 := by
  refine ⟨rfl, by decide, by decide, by decide⟩

/-- `process_batch` on an empty batch finishes immediately, whatever fuel
remains. -/
theorem processBatch_nil (behav : Nat → Nat → Outcome) (fuel proc : Nat)
    (s : SchedState) : processBatch behav fuel [] proc s = ([], proc, s) := by
  cases fuel <;> rfl

/-- The retry loop exits at once when `rate_limited` is empty. -/
theorem retryRounds_noRL (behav : Nat → Nat → Outcome)
    (pf bb budget : Nat) (s : SchedState) (h : s.rateLimited = []) :
    retryRounds behav pf bb budget s = s := by
  cases budget with
  | zero => rfl
  | succ b => simp [retryRounds, h]

/-- `process_batch` neither loses nor duplicates tasks: every task of the
incoming batch ends up in exactly one of the unconsumed batch, `succeeded`,
`rate_limited`, or `dropped`. -/
theorem processBatch_account (behav : Nat → Nat → Outcome) :
    ∀ (fuel : Nat) (batch : List (Nat × Nat)) (proc : Nat) (s : SchedState),
      taskAccount (processBatch behav fuel batch proc s).1
          (processBatch behav fuel batch proc s).2.2
        = taskAccount batch s := by
  intro fuel
  induction fuel with
  | zero => intro batch proc s; rfl
  | succ fuel ih =>
    intro batch proc s
    cases batch with
    | nil => rfl
    | cons tn rest =>
      obtain ⟨t, n⟩ := tn
      cases hb : behav t n <;>
        simp only [processBatch, hb] <;>
        rw [ih] <;>
        simp only [taskAccount, List.map_cons, List.map_append, List.map_nil,
          ← Multiset.cons_coe, ← Multiset.coe_add, ← Multiset.singleton_add,
          Multiset.coe_nil] <;>
        abel

/-- The retry loop neither loses nor duplicates tasks. -/
theorem retryRounds_account (behav : Nat → Nat → Outcome) (pf bb : Nat) :
    ∀ (budget : Nat) (s : SchedState),
      taskAccount [] (retryRounds behav pf bb budget s) = taskAccount [] s := by
  intro budget
  induction budget with
  | zero => intro s; rfl
  | succ b ih =>
    intro s
    by_cases h : s.rateLimited = []
    · simp [retryRounds, h]
    · have hpb := processBatch_account behav pf s.rateLimited 0
        { s with rounds := s.rounds + 1, sleeps := s.sleeps ++ [bb * (s.rounds + 1)],
                 rateLimited := [] }
      have hkey : ∀ s2 : SchedState,
          s2 = { (processBatch behav pf s.rateLimited 0
                    { s with rounds := s.rounds + 1,
                             sleeps := s.sleeps ++ [bb * (s.rounds + 1)],
                             rateLimited := [] }).2.2 with
                 rateLimited :=
                   (processBatch behav pf s.rateLimited 0
                     { s with rounds := s.rounds + 1,
                              sleeps := s.sleeps ++ [bb * (s.rounds + 1)],
                              rateLimited := [] }).1
                   ++ (processBatch behav pf s.rateLimited 0
                     { s with rounds := s.rounds + 1,
                              sleeps := s.sleeps ++ [bb * (s.rounds + 1)],
                              rateLimited := [] }).2.2.rateLimited } →
          taskAccount [] s2 = taskAccount [] s := by
        intro s2 hs2
        subst hs2
        simp only [taskAccount, List.map_nil, List.map_append, Multiset.coe_nil,
          ← Multiset.coe_add] at hpb ⊢
        abel_nf at hpb ⊢
        rw [← hpb]
      simp only [retryRounds, if_neg h]
      split
      · exact hkey _ rfl
      · rw [ih]
        exact hkey _ rfl

/-- C2 counterexample: a task whose single attempt fails with a generic
exception (`TimeoutException` / a never-resolvable locator) is caught by
the `except Exception` branch of `process_batch` (lines 573-574): it is
printed and dropped, attempted exactly once, never requeued, and it appears
neither among the succeeded tasks nor in the final permanently-failed
report.  This refutes the claim that such a task is retried under the
round-bounded policy and reported as permanently failed. -/
theorem C2_counterexample :
    ¬ (0 ∈ (runScheduler (fun _ _ => Outcome.otherError) [0] 3 30 4).2.succeeded ∨
       0 ∈ ((runScheduler (fun _ _ => Outcome.otherError) [0] 3 30 4).2.rateLimited.map
              Prod.fst)) ∧
      (runScheduler (fun _ _ => Outcome.otherError) [0] 3 30 4).2.dropped = [0] ∧
      (runScheduler (fun _ _ => Outcome.otherError) [0] 3 30 4).2.log = [(0, 0)] := by
  decide

/-- C2 (amended): every task of a completed run ends in exactly one of
*three* terminal outcomes — succeeded (artifact written), the final
permanently-failed report (`rate_limited` after the retry budget), or
logged-and-dropped by the generic `except Exception` branch; tasks are
neither lost nor duplicated.  (`Timeout`/`NotFound` failures take the
dropped path on their first occurrence, as the counterexample shows.) -/
theorem C2_task_partition (behav : Nat → Nat → Outcome) (tasks : List Nat)
    (maxRounds baseBackoff fuel : Nat)
    (hdone : (runScheduler behav tasks maxRounds baseBackoff fuel).1 = []) :
    (↑(runScheduler behav tasks maxRounds baseBackoff fuel).2.succeeded
        + ↑((runScheduler behav tasks maxRounds baseBackoff fuel).2.rateLimited.map
              Prod.fst)
        + ↑(runScheduler behav tasks maxRounds baseBackoff fuel).2.dropped
      : Multiset Nat) = ↑tasks := by
  have h0 := processBatch_account behav fuel (tasks.map (fun t => (t, 0))) 0
    ⟨[], [], [], [], [], 0⟩
  have h1 := retryRounds_account behav fuel baseBackoff maxRounds
    (processBatch behav fuel (tasks.map (fun t => (t, 0))) 0
      ⟨[], [], [], [], [], 0⟩).2.2
  have hout : (runScheduler behav tasks maxRounds baseBackoff fuel).2
      = retryRounds behav fuel baseBackoff maxRounds
          (processBatch behav fuel (tasks.map (fun t => (t, 0))) 0
            ⟨[], [], [], [], [], 0⟩).2.2 := rfl
  have hrem : (runScheduler behav tasks maxRounds baseBackoff fuel).1
      = (processBatch behav fuel (tasks.map (fun t => (t, 0))) 0
          ⟨[], [], [], [], [], 0⟩).1 := rfl
  rw [hrem] at hdone
  rw [hdone] at h0
  have hmap : ((tasks.map (fun t => (t, 0))).map Prod.fst) = tasks := by
    simp [List.map_map, Function.comp_def]
  rw [hout]
  calc (↑(retryRounds behav fuel baseBackoff maxRounds
            (processBatch behav fuel (tasks.map (fun t => (t, 0))) 0
              ⟨[], [], [], [], [], 0⟩).2.2).succeeded
        + ↑((retryRounds behav fuel baseBackoff maxRounds
              (processBatch behav fuel (tasks.map (fun t => (t, 0))) 0
                ⟨[], [], [], [], [], 0⟩).2.2).rateLimited.map Prod.fst)
        + ↑(retryRounds behav fuel baseBackoff maxRounds
              (processBatch behav fuel (tasks.map (fun t => (t, 0))) 0
                ⟨[], [], [], [], [], 0⟩).2.2).dropped
      : Multiset Nat)
      = taskAccount [] (retryRounds behav fuel baseBackoff maxRounds
          (processBatch behav fuel (tasks.map (fun t => (t, 0))) 0
            ⟨[], [], [], [], [], 0⟩).2.2) := by
        simp [taskAccount]
    _ = taskAccount []
          (processBatch behav fuel (tasks.map (fun t => (t, 0))) 0
            ⟨[], [], [], [], [], 0⟩).2.2 := h1
    _ = taskAccount (tasks.map (fun t => (t, 0))) ⟨[], [], [], [], [], 0⟩ := h0
    _ = ↑tasks := by simp [taskAccount, hmap]

/-- Witness for C2 (amended): a two-task run (one always rate-limited, one
immediately failing) partitions `[0, 1]` into the report and the dropped
list. -/
theorem C2_witness :
    (↑(runScheduler (fun t _ => if t = 0 then Outcome.rateLimited else Outcome.otherError)
          [0, 1] 3 30 6).2.succeeded
        + ↑((runScheduler (fun t _ => if t = 0 then Outcome.rateLimited else Outcome.otherError)
              [0, 1] 3 30 6).2.rateLimited.map Prod.fst)
        + ↑(runScheduler (fun t _ => if t = 0 then Outcome.rateLimited else Outcome.otherError)
              [0, 1] 3 30 6).2.dropped
      : Multiset Nat) = ↑[0, 1] :=
  C2_task_partition (fun t _ => if t = 0 then Outcome.rateLimited else Outcome.otherError)
    [0, 1] 3 30 6 (by decide)

/-- C1 counterexample: a single task rate-limited on every attempt, run
with the default budget (`max_rounds = 3`, `backoff_seconds * rounds`
sleeps).  The claim predicts three retry rounds with sleeps
`[30, 60, 90]`; the code performs only one retry round, because a round
that processes zero tasks breaks the loop (lines 593-594). -/
theorem C1_counterexample :
    ¬ ((runScheduler (fun _ _ => Outcome.rateLimited) [0] 3 30 4).2.rounds = 3 ∧
       (runScheduler (fun _ _ => Outcome.rateLimited) [0] 3 30 4).2.sleeps
         = [30 * 1, 30 * 2, 30 * 3]) := by
  decide

/-- C1 (amended): for a task rate-limited on every attempt, the scheduler
performs exactly *one* retry round — it sleeps `baseBackoff * 1` once,
retries, makes no progress, and the `processed_this_round == 0` check
terminates the loop — and the task is reported permanently failed. -/
theorem C1_always_rate_limited (t : Nat) (behav : Nat → Nat → Outcome)
    (baseBackoff fuel : Nat) (hfuel : 1 ≤ fuel)
    (hrl : ∀ n, behav t n = Outcome.rateLimited) :
    (runScheduler behav [t] 3 baseBackoff fuel).2.rounds = 1 ∧
      (runScheduler behav [t] 3 baseBackoff fuel).2.sleeps = [baseBackoff * 1] ∧
      (runScheduler behav [t] 3 baseBackoff fuel).2.rateLimited.map Prod.fst = [t] ∧
      (runScheduler behav [t] 3 baseBackoff fuel).2.succeeded = [] ∧
      (runScheduler behav [t] 3 baseBackoff fuel).1 = [] := by
  obtain ⟨k, rfl⟩ : ∃ k, fuel = k + 1 := ⟨fuel - 1, by omega⟩
  simp [runScheduler, retryRounds, processBatch, processBatch_nil, hrl]

/-- Witness for C1 (amended) at the constant rate-limited behaviour. -/
theorem C1_witness :
    (runScheduler (fun _ _ => Outcome.rateLimited) [0] 3 30 4).2.rounds = 1 ∧
      (runScheduler (fun _ _ => Outcome.rateLimited) [0] 3 30 4).2.sleeps = [30 * 1] ∧
      (runScheduler (fun _ _ => Outcome.rateLimited) [0] 3 30 4).2.rateLimited.map
          Prod.fst = [0] ∧
      (runScheduler (fun _ _ => Outcome.rateLimited) [0] 3 30 4).2.succeeded = [] ∧
      (runScheduler (fun _ _ => Outcome.rateLimited) [0] 3 30 4).1 = [] :=
  C1_always_rate_limited 0 (fun _ _ => Outcome.rateLimited) 30 4 (by omega)
    (fun _ => rfl)

/-- C7: a task `t` that raises `PopupError` on its first attempt is
appended to the end of the *current* batch (line 568) and so is retried in
the same round after the remaining task `u`; it succeeds on its second
attempt.  The processing log is `t` (attempt 0), then `u`, then `t`
(attempt 1); both tasks are recorded as succeeded, no sleep happens and no
retry round is consumed. -/
theorem C7_popup_retried_same_round (t u : Nat) (behav : Nat → Nat → Outcome)
    (maxRounds baseBackoff fuel : Nat) (hfuel : 3 ≤ fuel)
    (ht0 : behav t 0 = Outcome.popup) (ht1 : behav t 1 = Outcome.success)
    (hu : behav u 0 = Outcome.success) :
    runScheduler behav [t, u] maxRounds baseBackoff fuel
      = ([], { succeeded := [u, t], rateLimited := [], dropped := [],
               log := [(t, 0), (u, 0), (t, 1)], sleeps := [], rounds := 0 }) := by
  obtain ⟨k, rfl⟩ : ∃ k, fuel = k + 3 := ⟨fuel - 3, by omega⟩
  simp [runScheduler, processBatch, processBatch_nil, retryRounds_noRL,
    ht0, ht1, hu]

/-- Witness for C7: task `0` popups once then succeeds, task `1` succeeds
immediately. -/
theorem C7_witness :
    runScheduler
        (fun t n => if t = 0 then (if n = 0 then Outcome.popup else Outcome.success)
          else Outcome.success) [0, 1] 3 30 10
      = ([], { succeeded := [1, 0], rateLimited := [], dropped := [],
               log := [(0, 0), (1, 0), (0, 1)], sleeps := [], rounds := 0 }) :=
  C7_popup_retried_same_round 0 1
    (fun t n => if t = 0 then (if n = 0 then Outcome.popup else Outcome.success)
      else Outcome.success) 3 30 10 (by omega) rfl rfl rfl

/-- One-step unfolding of `rstripWS` on a cons cell. -/
theorem rstripWS_cons (c : Char) (rest : List Char) :
    rstripWS (c :: rest)
      = if rstripWS rest = [] && pySpace c then [] else c :: rstripWS rest := rfl

/-- Every character of `collapseWS b l` is either the space it substitutes
for a whitespace run or a non-whitespace character of `l`. -/
theorem mem_collapseWS :
    ∀ (b : Bool) (l : List Char) (c : Char),
      c ∈ collapseWS b l → c = ' ' ∨ (c ∈ l ∧ pySpace c = false) := by
  intro b l
  induction l generalizing b with
  | nil => intro c h; simp [collapseWS] at h
  | cons d rest ih =>
    intro c h
    simp only [collapseWS] at h
    by_cases hd : pySpace d
    · rw [if_pos hd] at h
      cases b with
      | true =>
        rcases ih true c h with h' | h'
        · exact Or.inl h'
        · exact Or.inr ⟨List.mem_cons_of_mem _ h'.1, h'.2⟩
      | false =>
        rcases List.mem_cons.mp h with h' | h'
        · exact Or.inl h'
        · rcases ih true c h' with h'' | h''
          · exact Or.inl h''
          · exact Or.inr ⟨List.mem_cons_of_mem _ h''.1, h''.2⟩
    · rw [if_neg hd] at h
      rcases List.mem_cons.mp h with h' | h'
      · subst h'
        exact Or.inr ⟨List.mem_cons_self _ _, by simpa using hd⟩
      · rcases ih false c h' with h'' | h''
        · exact Or.inl h''
        · exact Or.inr ⟨List.mem_cons_of_mem _ h''.1, h''.2⟩

/-- `rstripWS` only removes characters. -/
theorem mem_rstripWS : ∀ (l : List Char) (c : Char), c ∈ rstripWS l → c ∈ l := by
  intro l
  induction l with
  | nil => intro c h; simp [rstripWS] at h
  | cons d rest ih =>
    intro c h
    rw [rstripWS_cons] at h
    split at h
    · simp at h
    · rcases List.mem_cons.mp h with h' | h'
      · exact h' ▸ List.mem_cons_self _ _
      · exact List.mem_cons_of_mem _ (ih c h')

/-- Every character a sanitized name contains is legal, and its only
whitespace character is the plain space. -/
theorem sanitize_chars (s : List Char) :
    ∀ c ∈ sanitize_filename s,
      illegalChar c = false ∧ (pySpace c = true → c = ' ') := by
  intro c hc
  have hc1 : c ∈ stripWS (collapseWS false (replIllegal s)) :=
    List.take_subset _ _ hc
  have hc2 : c ∈ (collapseWS false (replIllegal s)).dropWhile pySpace :=
    mem_rstripWS _ c hc1
  have hc3 : c ∈ collapseWS false (replIllegal s) :=
    (List.dropWhile_sublist pySpace).subset hc2
  rcases mem_collapseWS false (replIllegal s) c hc3 with h | h
  · subst h
    exact ⟨rfl, fun _ => rfl⟩
  · refine ⟨?_, fun hsp => absurd h.2 (by simp [hsp])⟩
    rcases List.mem_map.mp h.1 with ⟨a, _, ha⟩
    by_cases hia : illegalChar a
    · rw [if_pos hia] at ha
      rw [← ha]
      rfl
    · rw [if_neg hia] at ha
      rw [← ha]
      simpa using hia

/-- The head of a `dropWhile` result does not satisfy the predicate. -/
theorem dropWhile_head_not (p : Char → Bool) :
    ∀ (l : List Char) (c : Char), (l.dropWhile p).head? = some c → p c = false := by
  intro l
  induction l with
  | nil => intro c h; simp [List.dropWhile] at h
  | cons d rest ih =>
    intro c h
    rw [List.dropWhile_cons] at h
    split at h
    · exact ih c h
    · rename_i hd
      simp only [List.head?_cons, Option.some.injEq] at h
      subst h
      simpa using hd

/-- `rstripWS` either empties a list or keeps its head. -/
theorem rstripWS_head (l : List Char) :
    rstripWS l = [] ∨ (rstripWS l).head? = l.head? := by
  cases l with
  | nil => exact Or.inl rfl
  | cons d rest =>
    rw [rstripWS_cons]
    split
    · exact Or.inl rfl
    · exact Or.inr rfl

/-- The head of `collapseWS true l` (inside a whitespace run) is never
whitespace. -/
theorem collapse_true_head :
    ∀ (l : List Char) (c : Char),
      (collapseWS true l).head? = some c → pySpace c = false := by
  intro l
  induction l with
  | nil => intro c h; simp [collapseWS] at h
  | cons d rest ih =>
    intro c h
    by_cases hd : pySpace d
    · rw [show collapseWS true (d :: rest) = collapseWS true rest by
        simp [collapseWS, hd]] at h
      exact ih c h
    · rw [show collapseWS true (d :: rest) = d :: collapseWS false rest by
        simp [collapseWS, hd]] at h
      simp only [List.head?_cons, Option.some.injEq] at h
      subst h
      simpa using hd

/-- `collapseWS` never emits two adjacent whitespace characters. -/
theorem chain_collapseWS :
    ∀ (b : Bool) (l : List Char), List.Chain' notBothWS (collapseWS b l) := by
  intro b l
  induction l generalizing b with
  | nil => simp [collapseWS, List.chain'_nil]
  | cons d rest ih =>
    by_cases hd : pySpace d
    · cases b with
      | true =>
        rw [show collapseWS true (d :: rest) = collapseWS true rest by
          simp [collapseWS, hd]]
        exact ih true
      | false =>
        rw [show collapseWS false (d :: rest) = ' ' :: collapseWS true rest by
          simp [collapseWS, hd]]
        rw [List.chain'_cons']
        refine ⟨?_, ih true⟩
        intro y hy
        exact Or.inr (collapse_true_head rest y (Option.mem_def.mp hy))
    · rw [show collapseWS b (d :: rest) = d :: collapseWS false rest by
        simp [collapseWS, hd]]
      rw [List.chain'_cons']
      exact ⟨fun y _ => Or.inl (by simpa using hd), ih false⟩

/-- Removing trailing whitespace preserves the no-adjacent-whitespace
invariant. -/
theorem chain_rstripWS :
    ∀ l : List Char, List.Chain' notBothWS l →
      List.Chain' notBothWS (rstripWS l) := by
  intro l
  induction l with
  | nil => intro _; simp [rstripWS, List.chain'_nil]
  | cons d rest ih =>
    intro h
    rw [List.chain'_cons'] at h
    rw [rstripWS_cons]
    split
    · exact List.chain'_nil
    · rw [List.chain'_cons']
      refine ⟨?_, ih h.2⟩
      intro y hy
      rcases rstripWS_head rest with h0 | h0
      · rw [h0] at hy; simp at hy
      · rw [h0] at hy
        exact h.1 y hy

/-- A sanitized name never contains two adjacent whitespace characters. -/
theorem chain_sanitize (s : List Char) :
    List.Chain' notBothWS (sanitize_filename s) := by
  have h1 := chain_collapseWS false (replIllegal s)
  have h2 : List.Chain' notBothWS
      ((collapseWS false (replIllegal s)).dropWhile pySpace) :=
    h1.suffix (List.dropWhile_suffix pySpace)
  have h3 := chain_rstripWS _ h2
  exact List.Chain'.prefix h3 ( List.take_prefix 180 _)

/-- Taking a positive-length prefix preserves the head. -/
theorem head_take180 (l : List Char) (c : Char)
    (h : (l.take 180).head? = some c) : l.head? = some c := by
  cases l with
  | nil => simp at h
  | cons a as =>
    rw [show (180 : Nat) = 179 + 1 from rfl, List.take_succ_cons] at h
    simpa using h

/-- A sanitized name never starts with whitespace. -/
theorem head_sanitize (s : List Char) :
    ∀ c, (sanitize_filename s).head? = some c → pySpace c = false := by
  intro c hc
  have h1 : (rstripWS ((collapseWS false (replIllegal s)).dropWhile pySpace)).head?
      = some c := head_take180 _ c hc
  rcases rstripWS_head ((collapseWS false (replIllegal s)).dropWhile pySpace)
    with h0 | h0
  · rw [h0] at h1; simp at h1
  · rw [h0] at h1
    exact dropWhile_head_not pySpace _ c h1

/-- A sanitized name never exceeds 180 characters. -/
theorem sanitize_length (s : List Char) : (sanitize_filename s).length ≤ 180 := by
  simp only [sanitize_filename, List.length_take]
  omega

/-- `collapseWS true` and `collapseWS false` agree on lists that do not
start with whitespace. -/
theorem collapse_flagswap (l : List Char)
    (h : ∀ c, l.head? = some c → pySpace c = false) :
    collapseWS true l = collapseWS false l := by
  cases l with
  | nil => rfl
  | cons d rest =>
    have hd : pySpace d = false := h d rfl
    simp [collapseWS, hd]

/-- `collapseWS false` is the identity on lists whose only whitespace is
the plain space and which have no adjacent whitespace. -/
theorem collapse_id :
    ∀ l : List Char, List.Chain' notBothWS l →
      (∀ c ∈ l, pySpace c = true → c = ' ') → collapseWS false l = l := by
  intro l
  induction l with
  | nil => intro _ _; rfl
  | cons d rest ih =>
    intro hch hsp
    rw [List.chain'_cons'] at hch
    by_cases hd : pySpace d
    · have hd' : d = ' ' := hsp d (List.mem_cons_self _ _) (by simpa using hd)
      have hrest_head : ∀ c, rest.head? = some c → pySpace c = false := by
        intro c hc
        rcases hch.1 c (Option.mem_def.mpr hc) with h | h
        · exact absurd h (by simp [hd])
        · exact h
      rw [show collapseWS false (d :: rest) = ' ' :: collapseWS true rest by
        simp [collapseWS, hd]]
      rw [collapse_flagswap rest hrest_head,
        ih hch.2 (fun c hc hsp' => hsp c (List.mem_cons_of_mem _ hc) hsp'), hd']
    · rw [show collapseWS false (d :: rest) = d :: collapseWS false rest by
        simp [collapseWS, hd]]
      rw [ih hch.2 (fun c hc hsp' => hsp c (List.mem_cons_of_mem _ hc) hsp')]

/-- `dropWhile` is the identity when the head already fails the
predicate. -/
theorem dropWhile_id (p : Char → Bool) (l : List Char)
    (h : ∀ c, l.head? = some c → p c = false) : l.dropWhile p = l := by
  cases l with
  | nil => rfl
  | cons d rest =>
    have hd : p d = false := h d rfl
    rw [List.dropWhile_cons, if_neg (by simp [hd])]

/-- `rstripWS` is the identity on lists that do not end in whitespace. -/
theorem rstrip_id :
    ∀ l : List Char,
      (∀ c, l.getLast? = some c → pySpace c = false) → rstripWS l = l := by
  intro l
  induction l with
  | nil => intro _; rfl
  | cons d rest ih =>
    intro h
    cases hr : rest with
    | nil =>
      subst hr
      have hd : pySpace d = false := h d (by simp)
      rw [rstripWS_cons]
      simp [rstripWS, hd]
    | cons e es =>
      subst hr
      have hrest : rstripWS (e :: es) = e :: es :=
        ih (fun c hc => h c (by rw [List.getLast?_cons_cons]; exact hc))
      rw [rstripWS_cons, hrest]
      simp

set_option maxRecDepth 10000 in
/-- C10 counterexample: `sanitize_filename` is *not* idempotent, and its
output *can* end in whitespace.  On 179 copies of `a` followed by `" b"`
the collapsed-and-stripped form has 181 characters, so the final `[:180]`
truncation (applied *after* `.strip()`) cuts the word `b` and leaves a
trailing space; a second application strips that space and returns a
179-character string. -/
theorem C10_counterexample :
    sanitize_filename (sanitize_filename (List.replicate 179 'a' ++ [' ', 'b']))
        ≠ sanitize_filename (List.replicate 179 'a' ++ [' ', 'b']) ∧
      (sanitize_filename (List.replicate 179 'a' ++ [' ', 'b'])).getLast?
        = some ' ' := by
  constructor
  · decide
  · decide

/-- C10 (amended): a sanitized name contains no illegal character, never
exceeds 180 characters, never starts with whitespace and never contains two
adjacent whitespace characters; `sanitize_filename` is idempotent on every
input whose output does not end in a space (the trailing space being
possible only when the 180-character truncation cuts inside whitespace). -/
theorem C10_sanitize_props (s : List Char) :
    (∀ c ∈ sanitize_filename s, illegalChar c = false) ∧
      (sanitize_filename s).length ≤ 180 ∧
      (∀ c, (sanitize_filename s).head? = some c → pySpace c = false) ∧
      List.Chain' notBothWS (sanitize_filename s) ∧
      ((sanitize_filename s).getLast? ≠ some ' ' →
        sanitize_filename (sanitize_filename s) = sanitize_filename s) := by
  refine ⟨fun c hc => (sanitize_chars s c hc).1, sanitize_length s,
    head_sanitize s, chain_sanitize s, ?_⟩
  intro hlast
  have hchars := sanitize_chars s
  have hhead := head_sanitize s
  have hchain := chain_sanitize s
  have ha : replIllegal (sanitize_filename s) = sanitize_filename s := by
    unfold replIllegal
    have hcong : ∀ c ∈ sanitize_filename s,
        (if illegalChar c then ' ' else c) = id c := by
      intro c hc
      rw [(hchars c hc).1]
      simp
    rw [List.map_congr_left hcong, List.map_id]
  have hlast' : ∀ c, (sanitize_filename s).getLast? = some c →
      pySpace c = false := by
    intro c hc
    by_cases hsp : pySpace c
    · have hmem : c ∈ sanitize_filename s := List.mem_of_getLast?_eq_some hc
      have hc' : c = ' ' := (hchars c hmem).2 (by simpa using hsp)
      rw [hc'] at hc
      exact absurd hc hlast
    · simpa using hsp
  have hb : collapseWS false (sanitize_filename s) = sanitize_filename s :=
    collapse_id _ hchain (fun c hc hsp => (hchars c hc).2 hsp)
  have hc : (sanitize_filename s).dropWhile pySpace = sanitize_filename s :=
    dropWhile_id pySpace _ hhead
  have hd : rstripWS (sanitize_filename s) = sanitize_filename s :=
    rstrip_id _ hlast'
  have he : (sanitize_filename s).take 180 = sanitize_filename s :=
    List.take_of_length_le (sanitize_length s)
  calc sanitize_filename (sanitize_filename s)
      = (rstripWS ((collapseWS false (replIllegal (sanitize_filename s))).dropWhile
          pySpace)).take 180 := rfl
    _ = sanitize_filename s := by rw [ha, hb, hc, hd, he]

/-- Witness for C10 (amended): double application is the identity on the
sanitized form of `"a:b"`. -/
theorem C10_witness :
    sanitize_filename (sanitize_filename ("a:b").data)
      = sanitize_filename ("a:b").data :=
  (C10_sanitize_props ("a:b").data).2.2.2.2 (by decide)

end Zipgrade
